import Mathlib

/-!
Verification of the asynchronous federated-learning coordinator from
`examples/tutorials/advanced/websockets-example-MNIST-parallel/Asynchronous-federated-learning-on-MNIST.ipynb`.

The notebook's training loop (cell 21) orchestrates rounds of federated
learning: it dispatches training requests to a fixed set of workers,
collects per-worker results `(worker_id, worker_model, worker_loss)`,
filters out absent models, computes the federated average, optionally
evaluates the per-worker models and the aggregate on a testing worker,
and decays the learning rate.  We embed the loop body and the federated
averaging step and prove the specified properties.

A parameter tensor is represented as a vector of rationals (the
parameter-wise operations act componentwise, so exact rational
arithmetic captures the stated averaging and decay laws).  A model
snapshot is an ordered mapping from layer name to parameter tensor,
represented as an association list with distinct keys.
-/

/-- A parameter tensor, flattened to a vector of exact rational values. -/
abbrev Tensor := List ℚ

/-- A model snapshot: an ordered mapping from layer name to parameter tensor. -/
abbrev Model := List (String × Tensor)

/-- Dictionary lookup of a layer's parameter tensor in a model snapshot. -/
def lookupParam : Model → String → Option Tensor
  | [], _ => none
  | p :: rest, k => if p.1 = k then some p.2 else lookupParam rest k

/-- Keys of a model snapshot, in order. -/
def modelKeys (m : Model) : List String := m.map Prod.fst

/-- Remove duplicate keys, keeping the first occurrence of each key. -/
def dedupKeys : List String → List String
  | [] => []
  | k :: rest => k :: (dedupKeys rest).filter (fun x => x ≠ k)

/-- Componentwise sum of two parameter tensors. -/
def addVec (v w : Tensor) : Tensor := List.zipWith (· + ·) v w

/-- Scale every component of a parameter tensor. -/
def scaleVec (c : ℚ) (v : Tensor) : Tensor := v.map (fun x => c * x)

/-- Componentwise sum of a list of parameter tensors. -/
def sumVecs : List Tensor → Tensor
  | [] => []
  | [v] => v
  | v :: rest => addVec v (sumVecs rest)

/-- Componentwise arithmetic mean of a list of parameter tensors. -/
def meanVec (vs : List Tensor) : Tensor :=
  scaleVec (1 / (vs.length : ℚ)) (sumVecs vs)

/-- The union of the layer keys of a list of model snapshots, first
occurrences first. -/
def unionKeys (ms : List Model) : List String :=
  dedupKeys (ms.map modelKeys).flatten

/-- The parameter tensors contributed for layer `k` by the snapshots that
contain that layer. -/
def contribVals (ms : List Model) (k : String) : List Tensor :=
  ms.filterMap (fun m => lookupParam m k)

/-- Modelled from the spec: the implementation of
`syft.frameworks.torch.federated.utils.federated_avg` is not part of the
sources, only its call site in the notebook is.  Per the spec's
aggregator contract, the input is a mapping from worker identifier to
model snapshot; for each parameter key the output holds the arithmetic
mean of that parameter across the contributing snapshots (uniform
weighting), every layer key present in at least one input appears in the
output, a layer missing from some inputs is averaged only over the
inputs that have it, and an empty input mapping is an explicit error. -/
def federated_avg (models : List (String × Model)) : Except String Model :=
  if models.isEmpty then
    Except.error "federated_avg: empty model mapping"
  else
    let ms := models.map Prod.snd
    Except.ok ((unionKeys ms).map (fun k => (k, meanVec (contribVals ms k))))

/-- Modelled from the spec: `federated_avg` together with its effect on the
contributed snapshots.  The library implementation is not part of the
sources; the notebook's own comment at the call site states that
federated averaging "will also change the model in models[0]", so the
snapshot stored for the first contributor is updated in place to the
aggregate while the remaining snapshots are left as they were. -/
def federated_avg_effect (models : List (String × Model)) :
    Except String (Model × List (String × Model)) :=
  match federated_avg models with
  | Except.error e => Except.error e
  | Except.ok avg =>
      Except.ok (avg, match models with
        | [] => []
        | (w, _) :: rest => (w, avg) :: rest)

/-- The evaluation trigger of the training loop (cell 21):
`test_models = curr_round % 10 == 1 or curr_round == args.training_rounds`. -/
def test_models (curr_round training_rounds : ℕ) : Bool :=
  curr_round % 10 == 1 || curr_round == training_rounds

/-- One learning-rate decay step of the training loop (cell 21):
`learning_rate = max(0.98 * learning_rate, args.lr * 0.01)`. -/
def lr_decay (args_lr lr : ℚ) : ℚ :=
  max ((98 / 100) * lr) (args_lr * (1 / 100))

/-- The learning rate after `n` decay steps, starting from
`learning_rate = args.lr` as in cell 21. -/
def lr_after (args_lr : ℚ) : ℕ → ℚ
  | 0 => args_lr
  | n + 1 => lr_decay args_lr (lr_after args_lr n)

/-- A per-worker round result as collected by `asyncio.gather` in cell 21:
`(worker_id, worker_model, worker_loss)`, where the model and the loss may
be absent. -/
abbrev RoundResult := String × Option Model × Option ℚ

/-- The observable outcome of one iteration of the training loop body
(cell 21): the evaluation invocations issued for the per-worker model
updates, the `models` and `loss_values` dictionaries built from the
present results, the new `traced_model` produced by `federated_avg`, the
evaluation invocation issued for the federated model, and the decayed
learning rate. -/
structure RoundOutput where
  evalCalls : List (String × Option Model)
  models : List (String × Model)
  loss_values : List (String × Option ℚ)
  traced_model : Model
  fedEvalCall : Option Model
  learning_rate : ℚ
deriving DecidableEq

/-- The body of the training loop in cell 21 for one round, given the
gathered `results`.  When the evaluation trigger fires, every round
result is sent to `evaluate_model_on_worker` (labelled
`"Model update " + worker_id`), with no check that its model is present;
the `models` and `loss_values` dictionaries keep only results whose
model is not `None`; `federated_avg` is applied to `models`; on trigger
the federated model is also evaluated; finally the learning rate is
decayed. -/
def roundBody (training_rounds curr_round : ℕ) (args_lr lr : ℚ)
    (results : List RoundResult) : Except String RoundOutput :=
  let testm := test_models curr_round training_rounds
  let evalCalls :=
    if testm then results.map (fun r => ("Model update " ++ r.1, r.2.1)) else []
  let models := results.filterMap (fun r => r.2.1.map (fun m => (r.1, m)))
  let loss_values := results.filterMap (fun r => r.2.1.map (fun _ => (r.1, r.2.2)))
  match federated_avg models with
  | Except.error e => Except.error e
  | Except.ok traced =>
      Except.ok ⟨evalCalls, models, loss_values, traced,
        if testm then some traced else none, lr_decay args_lr lr⟩

/-- The training loop of cell 21 over a list of round numbers, threading
`traced_model` and `learning_rate`; `fit` abstracts the remote training
step, giving the gathered results of a round from the round number, the
broadcast model and the current learning rate. -/
def runLoop (training_rounds : ℕ) (args_lr : ℚ)
    (fit : ℕ → Model → ℚ → List RoundResult) :
    List ℕ → Model → ℚ → Except String (Model × ℚ)
  | [], traced, lr => Except.ok (traced, lr)
  | r :: rest, traced, lr =>
    match roundBody training_rounds r args_lr lr (fit r traced lr) with
    | Except.error e => Except.error e
    | Except.ok out => runLoop training_rounds args_lr fit rest out.traced_model out.learning_rate

/-- Cells 15-21 end to end: the local `model` is traced into the initial
`traced_model` (sharing its parameter values), the loop runs for rounds
`1 .. training_rounds`, and afterwards, if `args.save_model` is set,
`torch.save(model.state_dict(), "mnist_cnn.pt")` persists the state of
the local variable `model` — which the loop never reassigns — not of
`traced_model`.  Returns the final `traced_model` and the snapshot that
is persisted (`none` when nothing is saved). -/
def runAndSave (save_model : Bool) (model : Model) (training_rounds : ℕ)
    (args_lr : ℚ) (fit : ℕ → Model → ℚ → List RoundResult) :
    Except String (Model × Option Model) :=
  match runLoop training_rounds args_lr fit (List.range' 1 training_rounds) model args_lr with
  | Except.error e => Except.error e
  | Except.ok (traced, _) =>
      Except.ok (traced, if save_model then some model else none)

lemma lookupParam_isSome_iff (m : Model) (k : String) :
    (lookupParam m k).isSome ↔ k ∈ modelKeys m := by
  induction m with
  | nil => simp [lookupParam, modelKeys]
  | cons p rest ih =>
    by_cases h : p.1 = k
    · simp [lookupParam, h, modelKeys]
    · simp [lookupParam, h, modelKeys, ih, Ne.symm h]

lemma lookupParam_cons_ne (p : String × Tensor) (rest : Model) (k : String)
    (h : p.1 ≠ k) : lookupParam (p :: rest) k = lookupParam rest k := by
  simp [lookupParam, h]

lemma mem_dedupKeys (l : List String) (k : String) :
    k ∈ dedupKeys l ↔ k ∈ l := by
  induction l with
  | nil => simp [dedupKeys]
  | cons a rest ih =>
    by_cases h : k = a
    · subst h; simp [dedupKeys]
    · simp [dedupKeys, List.mem_filter, ih, h]

lemma dedupKeys_eq_self (l : List String) (h : l.Nodup) : dedupKeys l = l := by
  induction l with
  | nil => rfl
  | cons a rest ih =>
    rw [List.nodup_cons] at h
    rw [dedupKeys, ih h.2, List.filter_eq_self.mpr]
    intro x hx
    simp only [decide_eq_true_eq]
    intro hxa
    exact h.1 (hxa ▸ hx)

lemma lookup_build (keys : List String) (f : String → Tensor) (k : String)
    (h : k ∈ keys) :
    lookupParam (keys.map (fun k => (k, f k))) k = some (f k) := by
  induction keys with
  | nil => cases h
  | cons a rest ih =>
    by_cases hak : a = k
    · subst hak; simp [lookupParam]
    · rw [List.map_cons, lookupParam_cons_ne _ _ _ hak]
      exact ih (by simpa [hak, Ne.symm hak] using h)

lemma meanVec_singleton (v : Tensor) : meanVec [v] = v := by
  simp [meanVec, sumVecs, scaleVec]

lemma meanVec_pair (v w : Tensor) :
    meanVec [v, w] = List.zipWith (fun a b => (a + b) / 2) v w := by
  have h2 : ((([v, w] : List Tensor).length : ℕ) : ℚ) = 2 := by norm_num
  rw [meanVec, h2]
  show scaleVec (1 / 2) (addVec v (sumVecs [w])) = _
  rw [show sumVecs [w] = w from rfl]
  unfold scaleVec addVec
  rw [List.map_zipWith]
  congr 1
  funext a b
  ring

lemma assoc_reconstruct (m : Model) (h : (modelKeys m).Nodup)
    (g : String → Tensor) (hg : ∀ k v, lookupParam m k = some v → g k = v) :
    (modelKeys m).map (fun k => (k, g k)) = m := by
  induction m with
  | nil => rfl
  | cons p rest ih =>
    rw [modelKeys, List.map_cons] at h ⊢
    rw [List.nodup_cons] at h
    rw [List.map_cons]
    have hhead : g p.1 = p.2 := hg p.1 p.2 (by simp [lookupParam])
    have htail : (modelKeys rest).map (fun k => (k, g k)) = rest := by
      refine ih h.2 fun k v hk => hg k v ?_
      have hk1 : p.1 ≠ k := by
        intro he
        have : k ∈ modelKeys rest := by
          have := congrArg Option.isSome hk
          simpa [lookupParam_isSome_iff] using this
        exact h.1 (he ▸ this)
      rw [lookupParam_cons_ne _ _ _ hk1]
      exact hk
    simp only [modelKeys] at htail
    rw [hhead, htail]

lemma mem_unionKeys (ms : List Model) (k : String) :
    k ∈ unionKeys ms ↔ ∃ m ∈ ms, k ∈ modelKeys m := by
  simp [unionKeys, mem_dedupKeys, List.mem_flatten]

lemma federated_avg_of_ne_nil (models : List (String × Model)) (h : models ≠ []) :
    federated_avg models = Except.ok
      ((unionKeys (models.map Prod.snd)).map
        (fun k => (k, meanVec (contribVals (models.map Prod.snd) k)))) := by
  rw [federated_avg, if_neg (by simpa [List.isEmpty_iff] using h)]

lemma lookup_federated_avg (models : List (String × Model)) (k : String)
    (h : models ≠ []) (hk : k ∈ unionKeys (models.map Prod.snd)) :
    federated_avg models = Except.ok
      ((unionKeys (models.map Prod.snd)).map
        (fun k => (k, meanVec (contribVals (models.map Prod.snd) k))))
    ∧ lookupParam
        ((unionKeys (models.map Prod.snd)).map
          (fun k => (k, meanVec (contribVals (models.map Prod.snd) k)))) k
      = some (meanVec (contribVals (models.map Prod.snd) k)) :=
  ⟨federated_avg_of_ne_nil models h, lookup_build _ _ _ hk⟩

lemma contribVals_map_snd (models : List (String × Model)) (k : String) :
    contribVals (models.map Prod.snd) k
      = models.filterMap (fun p => lookupParam p.2 k) := by
  rw [contribVals, List.filterMap_map]
  rfl

/-- C1: for every non-empty mapping of contributing model snapshots, the
aggregate is the parameter-wise arithmetic mean with uniform weighting:
at every key held by all contributors the output tensor is the mean of
that parameter across all contributing snapshots; the average of a
single model is that model exactly; and when two workers contribute
tensors `v₁` and `v₂` for the same key, the aggregate's tensor at that
key is the componentwise `(a + b) / 2`. -/
theorem federated_avg_uniform_mean :
    (∀ (models : List (String × Model)) (k : String), models ≠ [] →
      (∀ p ∈ models, (lookupParam p.2 k).isSome) →
      ∃ out, federated_avg models = Except.ok out ∧
        lookupParam out k =
          some (meanVec (models.filterMap (fun p => lookupParam p.2 k))))
    ∧ (∀ (w : String) (m : Model), (modelKeys m).Nodup →
        federated_avg [(w, m)] = Except.ok m)
    ∧ (∀ (w₁ w₂ : String) (m₁ m₂ : Model) (k : String) (v₁ v₂ : Tensor),
        lookupParam m₁ k = some v₁ → lookupParam m₂ k = some v₂ →
        ∃ out, federated_avg [(w₁, m₁), (w₂, m₂)] = Except.ok out ∧
          lookupParam out k = some (List.zipWith (fun a b => (a + b) / 2) v₁ v₂)) := by
  refine ⟨?_, ?_, ?_⟩
  · intro models k hne hall
    have hk : k ∈ unionKeys (models.map Prod.snd) := by
      rw [mem_unionKeys]
      obtain ⟨p, hp⟩ : ∃ p, p ∈ models := by
        cases models with
        | nil => exact absurd rfl hne
        | cons a l => exact ⟨a, List.mem_cons_self a l⟩
      exact ⟨p.2, List.mem_map_of_mem Prod.snd hp,
        (lookupParam_isSome_iff _ _).mp (hall p hp)⟩
    obtain ⟨hok, hlook⟩ := lookup_federated_avg models k hne hk
    exact ⟨_, hok, by rw [hlook, contribVals_map_snd]⟩
  · intro w m hnd
    rw [federated_avg_of_ne_nil _ (by simp)]
    have hkeys : unionKeys ([(w, m)].map Prod.snd) = modelKeys m := by
      rw [unionKeys]
      simp only [List.map_cons, List.map_nil, List.flatten_cons, List.flatten_nil,
        List.append_nil]
      exact dedupKeys_eq_self _ hnd
    rw [hkeys]
    congr 1
    refine assoc_reconstruct m hnd _ fun k v hkv => ?_
    simp [contribVals, List.filterMap_cons, hkv, meanVec_singleton]
  · intro w₁ w₂ m₁ m₂ k v₁ v₂ h₁ h₂
    have hne : ([(w₁, m₁), (w₂, m₂)] : List (String × Model)) ≠ [] := by simp
    have hk : k ∈ unionKeys ([(w₁, m₁), (w₂, m₂)].map Prod.snd) := by
      rw [mem_unionKeys]
      refine ⟨m₁, by simp, (lookupParam_isSome_iff _ _).mp (by simp [h₁])⟩
    obtain ⟨hok, hlook⟩ := lookup_federated_avg _ k hne hk
    refine ⟨_, hok, ?_⟩
    rw [hlook]
    have hcv : contribVals ([(w₁, m₁), (w₂, m₂)].map Prod.snd) k = [v₁, v₂] := by
      simp [contribVals, List.filterMap_cons, h₁, h₂]
    rw [hcv, meanVec_pair]

/-- Witness for C1 at concrete inputs: averaging the single snapshot
`fc ↦ [2, 4]` returns it unchanged, and averaging `fc ↦ [0]` with
`fc ↦ [1]` yields `fc ↦ [1/2]`. -/
theorem federated_avg_uniform_mean_witness :
    federated_avg [("alice", [("fc", [(2 : ℚ), 4])])] =
      Except.ok [("fc", [(2 : ℚ), 4])]
    ∧ ∃ out,
        federated_avg [("alice", [("fc", [(0 : ℚ)])]), ("bob", [("fc", [(1 : ℚ)])])] =
          Except.ok out
        ∧ lookupParam out "fc" = some [(1 : ℚ) / 2] := by
  constructor
  · exact federated_avg_uniform_mean.2.1 "alice" _ (by decide)
  · obtain ⟨out, h1, h2⟩ := federated_avg_uniform_mean.2.2 "alice" "bob"
      [("fc", [(0 : ℚ)])] [("fc", [(1 : ℚ)])] "fc" [0] [1] (by decide) (by decide)
    refine ⟨out, h1, ?_⟩
    rw [h2]
    norm_num

/-- C2: the evaluation trigger fires exactly when the round is 1, or the
round is 1 mod 10, or the round is the final round; over a 40-round run
it fires exactly at rounds 1, 11, 21, 31 and 40. -/
theorem eval_trigger_schedule :
    (∀ r n : ℕ, test_models r n = true ↔ (r = 1 ∨ r % 10 = 1 ∨ r = n))
    ∧ (List.range' 1 40).filter (fun r => test_models r 40) =
        [1, 11, 21, 31, 40] := by
  constructor
  · intro r n
    simp only [test_models, Bool.or_eq_true, beq_iff_eq]
    constructor
    · rintro (h | h)
      · exact Or.inr (Or.inl h)
      · exact Or.inr (Or.inr h)
    · rintro (h | h | h)
      · subst h; exact Or.inl rfl
      · exact Or.inl h
      · exact Or.inr h
  · decide

/-- C3: after `n` decay steps the learning rate equals
`max(0.98 ^ n * lr0, 0.01 * lr0)`, the sequence is monotonically
non-increasing, and it never falls below `0.01 * lr0`. -/
theorem lr_schedule_closed_form (lr0 : ℚ) (h : 0 ≤ lr0) (n : ℕ) :
    lr_after lr0 n = max ((98 / 100) ^ n * lr0) (lr0 * (1 / 100))
    ∧ lr_after lr0 (n + 1) ≤ lr_after lr0 n
    ∧ lr0 * (1 / 100) ≤ lr_after lr0 n := by
  have key : ∀ m, lr_after lr0 m = max ((98 / 100) ^ m * lr0) (lr0 * (1 / 100)) := by
    intro m
    induction m with
    | zero =>
      rw [lr_after, pow_zero, one_mul, max_eq_left (by linarith)]
    | succ m ih =>
      rw [lr_after, ih, lr_decay,
        mul_max_of_nonneg _ _ (by norm_num : (0 : ℚ) ≤ 98 / 100), max_assoc]
      congr 1
      · ring
      · rw [max_eq_right (by nlinarith)]
  have hdec : ∀ m, (98 / 100 : ℚ) ^ (m + 1) * lr0 ≤ (98 / 100) ^ m * lr0 := by
    intro m
    exact mul_le_mul_of_nonneg_right
      (pow_le_pow_of_le_one (by norm_num) (by norm_num) (Nat.le_succ m)) h
  refine ⟨key n, ?_, ?_⟩
  · rw [key n, key (n + 1)]
    exact max_le_max (hdec n) le_rfl
  · rw [key n]
    exact le_max_right _ _

/-- Witness for C3 at `lr0 = 1`, `n = 2`. -/
theorem lr_schedule_closed_form_witness :
    lr_after 1 2 = max ((98 / 100) ^ 2 * 1) ((1 : ℚ) * (1 / 100))
    ∧ lr_after 1 3 ≤ lr_after 1 2
    ∧ (1 : ℚ) * (1 / 100) ≤ lr_after 1 2 :=
  lr_schedule_closed_form 1 (by norm_num) 2

/-- C5: aggregation of an empty model mapping is a defined error, and a
round in which no worker contributes a model propagates that error
instead of producing an aggregate. -/
theorem federated_avg_empty_error :
    federated_avg ([] : List (String × Model)) =
      Except.error "federated_avg: empty model mapping"
    ∧ ∀ (training_rounds curr_round : ℕ) (args_lr lr : ℚ)
        (results : List RoundResult),
        (∀ r ∈ results, r.2.1 = none) →
        roundBody training_rounds curr_round args_lr lr results =
          Except.error "federated_avg: empty model mapping" := by
  refine ⟨rfl, ?_⟩
  intro tr cr a l results hnone
  have hmod : results.filterMap (fun r => r.2.1.map (fun m => (r.1, m)))
      = ([] : List (String × Model)) := by
    rw [List.filterMap_eq_nil_iff]
    intro r hr
    rw [hnone r hr]
    rfl
  simp only [roundBody, hmod]
  rfl

/-- Witness for C5: a round whose two results both carry `None` models
fails with the aggregation error. -/
theorem federated_avg_empty_error_witness :
    roundBody 40 2 1 1 [("alice", none, none), ("bob", none, none)] =
      Except.error "federated_avg: empty model mapping" :=
  federated_avg_empty_error.2 40 2 1 1 _ (by decide)

/-- C6: the aggregate's parameter keys are exactly the union of the keys
across the contributing snapshots. -/
theorem federated_avg_keys_are_union (models : List (String × Model))
    (h : models ≠ []) :
    ∃ out, federated_avg models = Except.ok out ∧
      ∀ k, (k ∈ modelKeys out ↔ ∃ p ∈ models, k ∈ modelKeys p.2) := by
  refine ⟨_, federated_avg_of_ne_nil models h, ?_⟩
  intro k
  rw [modelKeys, List.map_map]
  have hid : (Prod.fst ∘ fun k =>
      (k, meanVec (contribVals (models.map Prod.snd) k))) = id := rfl
  rw [hid, List.map_id, mem_unionKeys]
  constructor
  · rintro ⟨m, hm, hk⟩
    obtain ⟨p, hp, rfl⟩ := List.mem_map.mp hm
    exact ⟨p, hp, hk⟩
  · rintro ⟨p, hp, hk⟩
    exact ⟨p.2, List.mem_map_of_mem _ hp, hk⟩

/-- Witness for C6 at two one-layer snapshots with distinct keys. -/
theorem federated_avg_keys_are_union_witness :
    ∃ out, federated_avg [("alice", [("a", [(1 : ℚ)])]), ("bob", [("b", [(3 : ℚ)])])] =
        Except.ok out ∧
      ∀ k, (k ∈ modelKeys out ↔
        ∃ p ∈ [("alice", [("a", [(1 : ℚ)])]), ("bob", [("b", [(3 : ℚ)])])],
          k ∈ modelKeys p.2) :=
  federated_avg_keys_are_union _ (by decide)

lemma roundBody_ok (training_rounds curr_round : ℕ) (args_lr lr : ℚ)
    (results : List RoundResult) (avg : Model)
    (havg : federated_avg
        (results.filterMap (fun r => r.2.1.map (fun m => (r.1, m))))
      = Except.ok avg) :
    roundBody training_rounds curr_round args_lr lr results = Except.ok
      ⟨(if test_models curr_round training_rounds then
          results.map (fun r => ("Model update " ++ r.1, r.2.1)) else []),
       results.filterMap (fun r => r.2.1.map (fun m => (r.1, m))),
       results.filterMap (fun r => r.2.1.map (fun _ => (r.1, r.2.2))),
       avg,
       (if test_models curr_round training_rounds then some avg else none),
       lr_decay args_lr lr⟩ := by
  simp only [roundBody, havg]

/-- C4: a round result whose model is absent is excluded from the mapping
passed to aggregation, and the round is a soft skip: it completes, with
the aggregate computed over exactly the present models. -/
theorem absent_model_soft_skip (training_rounds curr_round : ℕ)
    (args_lr lr : ℚ) (results : List RoundResult)
    (h : ∃ r ∈ results, r.2.1.isSome) :
    ∃ out, roundBody training_rounds curr_round args_lr lr results = Except.ok out
      ∧ (∀ w m, ((w, m) ∈ out.models ↔ ∃ l, (w, some m, l) ∈ results))
      ∧ federated_avg out.models = Except.ok out.traced_model := by
  have hne : results.filterMap (fun r => r.2.1.map (fun m => (r.1, m))) ≠ [] := by
    obtain ⟨r, hr, hs⟩ := h
    obtain ⟨m, hm⟩ := Option.isSome_iff_exists.mp hs
    exact List.ne_nil_of_mem (List.mem_filterMap.mpr ⟨r, hr, by rw [hm]; rfl⟩)
  refine ⟨_, roundBody_ok training_rounds curr_round args_lr lr results _
      (federated_avg_of_ne_nil _ hne), ?_, ?_⟩
  · intro w m
    constructor
    · intro hm
      obtain ⟨⟨wid, om, ol⟩, hr, he⟩ := List.mem_filterMap.mp hm
      cases om with
      | none => cases he
      | some m' =>
        simp only [Option.map_some', Option.some.injEq, Prod.mk.injEq] at he
        obtain ⟨h1, h2⟩ := he
        subst h1; subst h2
        exact ⟨ol, hr⟩
    · rintro ⟨l', hl'⟩
      exact List.mem_filterMap.mpr ⟨(w, some m, l'), hl', rfl⟩
  · exact federated_avg_of_ne_nil _ hne

/-- Witness for C4: one present and one absent model; the present one is
in the aggregation mapping, the absent one is not, and the round
completes. -/
theorem absent_model_soft_skip_witness :
    ∃ out, roundBody 40 2 1 1
        [("alice", some [("fc", [(1 : ℚ)])], some 0), ("bob", none, none)]
      = Except.ok out
      ∧ (∀ w m, ((w, m) ∈ out.models ↔ ∃ l, (w, some m, l) ∈
          [("alice", some [("fc", [(1 : ℚ)])], some (0 : ℚ)), ("bob", none, none)]))
      ∧ federated_avg out.models = Except.ok out.traced_model :=
  absent_model_soft_skip 40 2 1 1
    [("alice", some [("fc", [(1 : ℚ)])], some 0), ("bob", none, none)] (by decide)

/-- C10: at a round where the evaluation trigger fires, the per-worker
evaluation is invoked exactly once for every round result — including
results whose model is absent — while the presence filter applies only
to the mapping passed to aggregation. -/
theorem eval_includes_absent_models (training_rounds curr_round : ℕ)
    (args_lr lr : ℚ) (results : List RoundResult) (out : RoundOutput)
    (htrig : test_models curr_round training_rounds = true)
    (hok : roundBody training_rounds curr_round args_lr lr results = Except.ok out) :
    out.evalCalls = results.map (fun r => ("Model update " ++ r.1, r.2.1))
    ∧ (∀ w l, (w, (none : Option Model), l) ∈ results →
        ("Model update " ++ w, (none : Option Model)) ∈ out.evalCalls)
    ∧ (∀ w m, (w, m) ∈ out.models → ∃ l', (w, some m, l') ∈ results) := by
  simp only [roundBody] at hok
  cases hfa : federated_avg
      (results.filterMap (fun r => r.2.1.map (fun m => (r.1, m)))) with
  | error e => rw [hfa] at hok; cases hok
  | ok traced =>
    rw [hfa] at hok
    simp only [Except.ok.injEq] at hok
    subst hok
    refine ⟨?_, ?_, ?_⟩
    · show (if test_models curr_round training_rounds then _ else _) = _
      rw [if_pos htrig]
    · intro w l hw
      show _ ∈ (if test_models curr_round training_rounds then _ else _)
      rw [if_pos htrig]
      exact List.mem_map.mpr ⟨(w, none, l), hw, rfl⟩
    · intro w m hm
      obtain ⟨⟨wid, om, ol⟩, hr, he⟩ := List.mem_filterMap.mp hm
      cases om with
      | none => cases he
      | some m' =>
        simp only [Option.map_some', Option.some.injEq, Prod.mk.injEq] at he
        obtain ⟨h1, h2⟩ := he
        subst h1; subst h2
        exact ⟨ol, hr⟩


/-- Witness for C10 at round 11 of 40: the result with an absent model is
still sent to evaluation. -/
theorem eval_includes_absent_models_witness :
    ("Model update bob", (none : Option Model)) ∈
      ([("Model update alice", some [("fc", [(2 : ℚ)])]),
        ("Model update bob", (none : Option Model))] :
        List (String × Option Model)) := by
  have h := eval_includes_absent_models 40 11 1 1
    [("alice", some [("fc", [(2 : ℚ)])], some 0), ("bob", none, none)]
    ⟨[("Model update alice", some [("fc", [(2 : ℚ)])]), ("Model update bob", none)],
     [("alice", [("fc", [(2 : ℚ)])])],
     [("alice", some (0 : ℚ))],
     [("fc", [(2 : ℚ)])],
     some [("fc", [(2 : ℚ)])],
     lr_decay 1 1⟩ (by decide)
    (by simp [roundBody, test_models, federated_avg, unionKeys, dedupKeys, modelKeys,
      contribVals, meanVec, sumVecs, scaleVec, addVec, lookupParam])
  exact h.2.1 "bob" none (by simp)

/-- C8 counterexample: federated averaging does not leave every input
snapshot unchanged — averaging `fc ↦ [0]` (alice) with `fc ↦ [1]` (bob)
leaves alice's stored snapshot holding the aggregate `fc ↦ [1/2]`, not
its original value. -/
theorem federated_avg_mutates_first_input :
    federated_avg_effect
        [("alice", [("fc", [(0 : ℚ)])]), ("bob", [("fc", [(1 : ℚ)])])] =
      Except.ok ([("fc", [(1 : ℚ) / 2])],
        [("alice", [("fc", [(1 : ℚ) / 2])]), ("bob", [("fc", [(1 : ℚ)])])])
    ∧ ([("fc", [(1 : ℚ) / 2])] : Model) ≠ [("fc", [(0 : ℚ)])] := by
  constructor
  · simp [federated_avg_effect, federated_avg, unionKeys, dedupKeys, modelKeys,
      contribVals, meanVec, sumVecs, scaleVec, addVec, lookupParam]
  · simp

/-- C8 amended: federated averaging leaves every contributed snapshot
except the first unchanged; the snapshot stored for the first
contributor is replaced in place by the aggregate. -/
theorem federated_avg_effect_frame (models : List (String × Model))
    (avg : Model) (post : List (String × Model))
    (h : federated_avg_effect models = Except.ok (avg, post)) :
    federated_avg models = Except.ok avg
    ∧ post.drop 1 = models.drop 1
    ∧ ∀ w m rest, models = (w, m) :: rest → post = (w, avg) :: rest := by
  rw [federated_avg_effect] at h
  cases hfa : federated_avg models with
  | error e => rw [hfa] at h; cases h
  | ok a =>
    rw [hfa] at h
    cases models with
    | nil =>
      simp only [Except.ok.injEq, Prod.mk.injEq] at h
      obtain ⟨rfl, rfl⟩ := h
      exact ⟨rfl, rfl, fun w m rest hw => by cases hw⟩
    | cons p rest =>
      obtain ⟨w₀, m₀⟩ := p
      simp only [Except.ok.injEq, Prod.mk.injEq] at h
      obtain ⟨rfl, rfl⟩ := h
      refine ⟨rfl, rfl, ?_⟩
      intro w m r hw
      injection hw with h1 h2
      subst h2
      simp only [Prod.mk.injEq] at h1
      obtain ⟨rfl, rfl⟩ := h1
      rfl

/-- Witness for C8's amended statement at a concrete two-worker input. -/
theorem federated_avg_effect_frame_witness :
    federated_avg [("a", [("k", [(0 : ℚ)])]), ("b", [("k", [(2 : ℚ)])])] =
      Except.ok [("k", [(1 : ℚ)])]
    ∧ ([("a", [("k", [(1 : ℚ)])]), ("b", [("k", [(2 : ℚ)])])] :
        List (String × Model)).drop 1 =
      ([("a", [("k", [(0 : ℚ)])]), ("b", [("k", [(2 : ℚ)])])] :
        List (String × Model)).drop 1 := by
  have h := federated_avg_effect_frame
    [("a", [("k", [(0 : ℚ)])]), ("b", [("k", [(2 : ℚ)])])]
    [("k", [(1 : ℚ)])]
    [("a", [("k", [(1 : ℚ)])]), ("b", [("k", [(2 : ℚ)])])]
    (by simp [federated_avg_effect, federated_avg, unionKeys, dedupKeys, modelKeys,
      contribVals, meanVec, sumVecs, scaleVec, addVec, lookupParam])
  exact ⟨h.1, h.2.1⟩

/-- C9: at the end of the run, `torch.save` persists the state of the
local `model` variable, which the training loop never reassigns — not
the final federated average held in `traced_model`.  At this input the
run produces the aggregate `fc ↦ [1]` while the saved snapshot is the
initial `fc ↦ [0]`; with the flag unset nothing is persisted. -/
theorem saved_model_is_initial_not_final :
    runAndSave true [("fc", [(0 : ℚ)])] 1 1
        (fun _ _ _ => [("alice", some [("fc", [(1 : ℚ)])], some 0)]) =
      Except.ok ([("fc", [(1 : ℚ)])], some [("fc", [(0 : ℚ)])])
    ∧ ([("fc", [(1 : ℚ)])] : Model) ≠ [("fc", [(0 : ℚ)])]
    ∧ runAndSave false [("fc", [(0 : ℚ)])] 1 1
        (fun _ _ _ => [("alice", some [("fc", [(1 : ℚ)])], some 0)]) =
      Except.ok ([("fc", [(1 : ℚ)])], none) := by
  refine ⟨?_, by simp, ?_⟩
  · simp [runAndSave, runLoop, roundBody, test_models, lr_decay, federated_avg, unionKeys,
      dedupKeys, modelKeys, contribVals, meanVec, sumVecs, scaleVec, addVec, lookupParam,
      List.range']
  · simp [runAndSave, runLoop, roundBody, test_models, lr_decay, federated_avg, unionKeys,
      dedupKeys, modelKeys, contribVals, meanVec, sumVecs, scaleVec, addVec, lookupParam,
      List.range']
